import Mathlib

/-!
Verification of the session manager in
`src/packages/tldraw/src/lib/state/session/session.ts`.

The manager holds at most one active session (`current?: BaseSession`) and a
change-notifier callback (`onSessionChange`).  We embed the class as a pure
state type: the optional `current` slot together with an event log recording,
in order, every notifier invocation and every invocation of a session
capability (`update`/`complete`/`cancel`) with its argument.  Methods that may
throw (`begin`, `update`) return an optional error alongside the post-state;
a thrown error happens before any mutation, so the post-state equals the
pre-state in that case.  `complete` returns the session's result (an `Option`,
since a JavaScript function may return `undefined`) alongside the post-state.
-/

namespace Tldraw

/-- Modelled from the spec: `BaseSession` is declared in
`session-types.ts`, which is not part of the provided sources.  Per the spec
it is an opaque capability set `{update, complete, cancel}`; the manager never
inspects it and only forwards calls.  We give each session an identity `sid`
(so the log can record which session's capability was invoked) and the pure
result function of its `complete` capability (`none` models a `complete` that
returns `undefined`).  `update` and `cancel` return `void`, so their only
observable behaviour is the invocation itself, which the manager's log
records. -/
structure BaseSession (α β : Type) where
  sid : Nat
  completeResult : α → Option β

/-- Observable events emitted by the manager: a call of the `onSessionChange`
notifier, or a forwarded call of a session capability with its argument. -/
inductive SessionEvent (α : Type) where
  | notify
  | sessUpdate (sid : Nat) (arg : α)
  | sessComplete (sid : Nat) (arg : α)
  | sessCancel (sid : Nat) (arg : α)
deriving DecidableEq, Repr

/-- The two errors the manager can throw.  `doubleBegin` is
`'Cannot begin a session until the current session is complete. ...'`;
`noActiveSession` is `'No current session.'`. -/
inductive SessionError where
  | doubleBegin
  | noActiveSession
deriving DecidableEq, Repr

/-- State of the `Session` manager class: the `current` slot plus the log of
emitted events (the notifier callback itself is external; the log records its
invocations). -/
structure Session (α β : Type) where
  current : Option (BaseSession α β)
  log : List (SessionEvent α)

namespace Session

variable {α β : Type}

/-- A freshly constructed manager: `constructor(onSessionChange)` leaves
`current` undefined and has emitted nothing. -/
def fresh : Session α β := ⟨none, []⟩

/-- Embeds `begin(session)`: throws if a session is active (before any
mutation), otherwise stores the session and then invokes the notifier. -/
def begin (m : Session α β) (s : BaseSession α β) :
    Option SessionError × Session α β :=
  match m.current with
  | some _ => (some .doubleBegin, m)
  | none => (none, ⟨some s, m.log ++ [.notify]⟩)

/-- Embeds `update(...args)`: throws if no session is active (before any
mutation), otherwise forwards the argument to the active session's `update`
and then invokes the notifier; `current` is unchanged. -/
def update (m : Session α β) (a : α) :
    Option SessionError × Session α β :=
  match m.current with
  | none => (some .noActiveSession, m)
  | some s => (none, ⟨some s, m.log ++ [.sessUpdate s.sid a, .notify]⟩)

/-- Embeds `complete(...args)`: invokes the active session's `complete` if one
is present (optional chaining), clears `current`, and returns the session's
result (`none`, i.e. `undefined`, when no session was active).  The notifier
is not invoked. -/
def complete (m : Session α β) (a : α) :
    Option β × Session α β :=
  match m.current with
  | none => (none, { m with current := none })
  | some s => (s.completeResult a, ⟨none, m.log ++ [.sessComplete s.sid a]⟩)

/-- Embeds `cancel(...args)`: invokes the active session's `cancel` if one is
present (optional chaining), clears `current`, and invokes the notifier
(unconditionally, also when no session was active). -/
def cancel (m : Session α β) (a : α) : Session α β :=
  match m.current with
  | none => { m with log := m.log ++ [.notify] }
  | some s => ⟨none, m.log ++ [.sessCancel s.sid a, .notify]⟩

/-- Embeds `quietlyComplete()`: clears `current` without invoking any session
capability and without invoking the notifier. -/
def quietlyComplete (m : Session α β) : Session α β :=
  { m with current := none }

/-- Embeds the getter `isInSession`: `this.current !== undefined`.  (A
`BaseSession` is an object, hence truthy, so the truthiness test in `begin`
coincides with this test.) -/
def isInSession (m : Session α β) : Bool := m.current.isSome

end Session

/-- Operations a caller can apply to the manager, with their payloads. -/
inductive Op (α β : Type) where
  | begin (s : BaseSession α β)
  | update (a : α)
  | complete (a : α)
  | cancel (a : α)
  | quietlyComplete

/-- The three operations that deactivate the session (`update` is not one;
`begin` activates). -/
def Op.isEnder : Op α β → Bool
  | .complete _ => true
  | .cancel _ => true
  | .quietlyComplete => true
  | _ => false

namespace Session

variable {α β : Type}

/-- Applies one operation to the manager state, discarding returned values; a
thrown error leaves the state unchanged (as in the source, where the throw
precedes any mutation). -/
def step (m : Session α β) : Op α β → Session α β
  | .begin s => (m.begin s).2
  | .update a => (m.update a).2
  | .complete a => (m.complete a).2
  | .cancel a => m.cancel a
  | .quietlyComplete => m.quietlyComplete

/-- Applies a finite sequence of operations in order. -/
def run (m : Session α β) (ops : List (Op α β)) : Session α β :=
  ops.foldl step m

theorem run_cons (m : Session α β) (op : Op α β) (ops : List (Op α β)) :
    run m (op :: ops) = run (step m op) ops := rfl

theorem run_append (m : Session α β) (l r : List (Op α β)) :
    run m (l ++ r) = run (run m l) r := by
  simp [run, List.foldl_append]

theorem isInSession_step_begin (m : Session α β) (s : BaseSession α β) :
    (step m (Op.begin s)).isInSession = true := by
  cases h : m.current <;> simp [step, Session.begin, isInSession, h]

theorem isInSession_step_update (m : Session α β) (a : α) :
    (step m (Op.update a)).isInSession = m.isInSession := by
  cases h : m.current <;> simp [step, Session.update, isInSession, h]

theorem isInSession_step_ender (m : Session α β) (op : Op α β)
    (h : op.isEnder = true) : (step m op).isInSession = false := by
  cases op with
  | begin s => simp [Op.isEnder] at h
  | update a => simp [Op.isEnder] at h
  | complete a =>
      cases hc : m.current <;>
        simp [step, Session.complete, isInSession, hc]
  | cancel a =>
      cases hc : m.current <;>
        simp [step, Session.cancel, isInSession, hc]
  | quietlyComplete => simp [step, Session.quietlyComplete, isInSession]

theorem isInSession_run_of_noEnder (r : List (Op α β)) :
    ∀ m : Session α β, (∀ op ∈ r, op.isEnder = false) →
      m.isInSession = true → (run m r).isInSession = true := by
  induction r with
  | nil => intro m _ hm; exact hm
  | cons op r ih =>
      intro m hr hm
      rw [run_cons]
      cases op with
      | begin s =>
          exact ih _ (fun o ho => hr o (List.mem_cons_of_mem _ ho))
            (isInSession_step_begin m s)
      | update a =>
          exact ih _ (fun o ho => hr o (List.mem_cons_of_mem _ ho))
            ((isInSession_step_update m a).trans hm)
      | complete a =>
          have := hr (Op.complete a) (List.mem_cons_self _ _)
          simp [Op.isEnder] at this
      | cancel a =>
          have := hr (Op.cancel a) (List.mem_cons_self _ _)
          simp [Op.isEnder] at this
      | quietlyComplete =>
          have := hr Op.quietlyComplete (List.mem_cons_self _ _)
          simp [Op.isEnder] at this

end Session

/-- Predicate picking out the notifier invocations in a log. -/
def SessionEvent.isNotify : SessionEvent α → Bool
  | .notify => true
  | _ => false

/-- Predicate picking out invocations of a session's `complete` capability. -/
def SessionEvent.isCompleteCall : SessionEvent α → Bool
  | .sessComplete _ _ => true
  | _ => false

/-- Predicate picking out invocations of a session's `cancel` capability. -/
def SessionEvent.isCancelCall : SessionEvent α → Bool
  | .sessCancel _ _ => true
  | _ => false

/-- Predicate picking out invocations of any session capability. -/
def SessionEvent.isCapabilityCall : SessionEvent α → Bool
  | .notify => false
  | _ => true

section Claims

variable {α β : Type}

/-- C1: if a session `s₀` is already active, `begin` with any new session `s`
throws the double-begin error, stores nothing, and leaves the whole state —
in particular the active session `s₀` and the log (so no notification) —
exactly as it was; and `begin` succeeds (no error) exactly when no session is
active. -/
theorem begin_double_raises (m : Session α β) (s₀ s : BaseSession α β) :
    (m.current = some s₀ →
      m.begin s = (some SessionError.doubleBegin, m)) ∧
    (m.current = none → (m.begin s).1 = none) := by
  constructor <;> intro h <;> simp [Session.begin, h]

/-- Witness for C1 at a concrete active manager and a concrete idle one. -/
theorem begin_double_raises_witness :
    (Session.begin (⟨some ⟨0, fun _ => none⟩, []⟩ : Session Nat Nat)
        ⟨1, fun _ => none⟩ =
      (some SessionError.doubleBegin, ⟨some ⟨0, fun _ => none⟩, []⟩)) ∧
    ((Session.begin (Session.fresh : Session Nat Nat) ⟨1, fun _ => none⟩).1 =
      none) :=
  ⟨(begin_double_raises ⟨some ⟨0, fun _ => none⟩, []⟩ ⟨0, fun _ => none⟩
      ⟨1, fun _ => none⟩).1 rfl,
   (begin_double_raises Session.fresh ⟨0, fun _ => none⟩
      ⟨1, fun _ => none⟩).2 rfl⟩

/-- C2: for every finite operation sequence applied to a fresh manager,
`isInSession` (a pure function of the state, with no effect on it) is `true`
iff the sequence decomposes around a successful `begin` — one performed while
no session was active — that is not yet followed by any of `complete`,
`cancel`, `quietlyComplete` (only failed begins and updates may follow). -/
theorem isInSession_iff_lastBegin (ops : List (Op α β)) :
    (Session.run (Session.fresh : Session α β) ops).isInSession = true ↔
    ∃ (l : List (Op α β)) (s : BaseSession α β) (r : List (Op α β)),
      ops = l ++ Op.begin s :: r ∧
      (Session.run (Session.fresh : Session α β) l).isInSession = false ∧
      ∀ op ∈ r, op.isEnder = false := by
  constructor
  · induction ops using List.reverseRecOn with
    | nil => intro h; simp [Session.run, Session.fresh, Session.isInSession] at h
    | append_singleton l op ih =>
        intro h
        rw [Session.run_append] at h
        cases op with
        | begin s =>
            cases hc : (Session.run (Session.fresh : Session α β) l).isInSession with
            | false =>
                exact ⟨l, s, [], by simp, hc, by simp⟩
            | true =>
                obtain ⟨l', s', r, hl, hidle, hr⟩ := ih hc
                refine ⟨l', s', r ++ [Op.begin s], ?_, hidle, ?_⟩
                · rw [hl]; simp
                · intro op hop
                  rcases List.mem_append.mp hop with h₁ | h₂
                  · exact hr op h₁
                  · simp at h₂; subst h₂; simp [Op.isEnder]
        | update a =>
            rw [show Session.run _ [Op.update a] =
                Session.step (Session.run (Session.fresh : Session α β) l)
                  (Op.update a) from rfl,
              Session.isInSession_step_update] at h
            obtain ⟨l', s', r, hl, hidle, hr⟩ := ih h
            refine ⟨l', s', r ++ [Op.update a], ?_, hidle, ?_⟩
            · rw [hl]; simp
            · intro op hop
              rcases List.mem_append.mp hop with h₁ | h₂
              · exact hr op h₁
              · simp at h₂; subst h₂; simp [Op.isEnder]
        | complete a =>
            rw [show Session.run _ [Op.complete a] =
                Session.step (Session.run (Session.fresh : Session α β) l)
                  (Op.complete a) from rfl,
              Session.isInSession_step_ender _ _ (by simp [Op.isEnder])] at h
            exact absurd h (by simp)
        | cancel a =>
            rw [show Session.run _ [Op.cancel a] =
                Session.step (Session.run (Session.fresh : Session α β) l)
                  (Op.cancel a) from rfl,
              Session.isInSession_step_ender _ _ (by simp [Op.isEnder])] at h
            exact absurd h (by simp)
        | quietlyComplete =>
            rw [show Session.run _ [Op.quietlyComplete] =
                Session.step (Session.run (Session.fresh : Session α β) l)
                  Op.quietlyComplete from rfl,
              Session.isInSession_step_ender _ _ (by simp [Op.isEnder])] at h
            exact absurd h (by simp)
  · rintro ⟨l, s, r, rfl, hidle, hr⟩
    rw [Session.run_append, Session.run_cons]
    exact Session.isInSession_run_of_noEnder r _ hr
      (Session.isInSession_step_begin _ s)

/-- C3: on a fresh manager, after `begin S; update a; update b` the log is
exactly a notification, `S.update` with `a`, a notification, `S.update` with
`b`, a notification — so the notifier has fired exactly three times and `S`'s
update capability was invoked with `a` then `b`; the subsequent `complete c`
invokes `S`'s complete capability exactly once, with `c`, returns exactly
`S.complete c`'s value, and leaves the manager idle. -/
theorem scenario_begin_update_update_complete (S : BaseSession α β) (a b c : α) :
    ((((Session.fresh.begin S).2.update a).2.update b).2.log =
      [SessionEvent.notify, SessionEvent.sessUpdate S.sid a,
       SessionEvent.notify, SessionEvent.sessUpdate S.sid b,
       SessionEvent.notify]) ∧
    ((((Session.fresh.begin S).2.update a).2.update b).2.log.countP
        SessionEvent.isNotify = 3) ∧
    (((((Session.fresh.begin S).2.update a).2.update b).2.complete c).1 =
      S.completeResult c) ∧
    (((((Session.fresh.begin S).2.update a).2.update b).2.complete c).2.current
      = none) ∧
    (((((Session.fresh.begin S).2.update a).2.update b).2.complete c).2.log =
      (((Session.fresh.begin S).2.update a).2.update b).2.log ++
        [SessionEvent.sessComplete S.sid c]) ∧
    (((((Session.fresh.begin S).2.update a).2.update b).2.complete c).2.log.countP
        SessionEvent.isCompleteCall = 1) := by
  refine ⟨rfl, ?_, rfl, rfl, rfl, ?_⟩ <;>
    simp [Session.fresh, Session.begin, Session.update, Session.complete,
      List.countP_cons, SessionEvent.isNotify, SessionEvent.isCompleteCall]

/-- C4: with a session `s` active, `complete a` leaves the manager idle,
returns exactly the value produced by the session's `complete` capability on
`a`, and does not invoke the notifier (the number of notifier invocations in
the log is unchanged). -/
theorem complete_active (m : Session α β) (s : BaseSession α β) (a : α)
    (h : m.current = some s) :
    (m.complete a).2.current = none ∧
    (m.complete a).1 = s.completeResult a ∧
    (m.complete a).2.log.countP SessionEvent.isNotify =
      m.log.countP SessionEvent.isNotify := by
  simp [Session.complete, h, List.countP_append, List.countP_cons,
    SessionEvent.isNotify]

/-- Witness for C4 at a concrete active manager. -/
theorem complete_active_witness :
    ((Session.complete (⟨some ⟨0, fun n => some (n + 1)⟩, []⟩ : Session Nat Nat)
        5).2.current = none) ∧
    ((Session.complete (⟨some ⟨0, fun n => some (n + 1)⟩, []⟩ : Session Nat Nat)
        5).1 = (fun n => some (n + 1) : Nat → Option Nat) 5) ∧
    ((Session.complete (⟨some ⟨0, fun n => some (n + 1)⟩, []⟩ : Session Nat Nat)
        5).2.log.countP SessionEvent.isNotify =
      List.countP SessionEvent.isNotify ([] : List (SessionEvent Nat))) :=
  complete_active ⟨some ⟨0, fun n => some (n + 1)⟩, []⟩
    ⟨0, fun n => some (n + 1)⟩ 5 rfl

/-- C5: with a session `s` active, `cancel a` leaves the manager idle, appends
exactly one invocation of the session's `cancel` capability with argument `a`
followed by exactly one notifier invocation, and yields the manager (the
source returns `this`). -/
theorem cancel_active (m : Session α β) (s : BaseSession α β) (a : α)
    (h : m.current = some s) :
    (m.cancel a).current = none ∧
    (m.cancel a).log =
      m.log ++ [SessionEvent.sessCancel s.sid a, SessionEvent.notify] ∧
    (m.cancel a).log.countP SessionEvent.isCancelCall =
      m.log.countP SessionEvent.isCancelCall + 1 ∧
    (m.cancel a).log.countP SessionEvent.isNotify =
      m.log.countP SessionEvent.isNotify + 1 := by
  simp [Session.cancel, h, List.countP_append, List.countP_cons,
    SessionEvent.isCancelCall, SessionEvent.isNotify]

/-- Witness for C5 at a concrete active manager. -/
theorem cancel_active_witness :
    ((Session.cancel (⟨some ⟨0, fun _ => none⟩, []⟩ : Session Nat Nat)
        7).current = none) ∧
    ((Session.cancel (⟨some ⟨0, fun _ => none⟩, []⟩ : Session Nat Nat)
        7).log =
      [] ++ [SessionEvent.sessCancel 0 7, SessionEvent.notify]) ∧
    ((Session.cancel (⟨some ⟨0, fun _ => none⟩, []⟩ : Session Nat Nat)
        7).log.countP SessionEvent.isCancelCall =
      List.countP SessionEvent.isCancelCall ([] : List (SessionEvent Nat)) + 1) ∧
    ((Session.cancel (⟨some ⟨0, fun _ => none⟩, []⟩ : Session Nat Nat)
        7).log.countP SessionEvent.isNotify =
      List.countP SessionEvent.isNotify ([] : List (SessionEvent Nat)) + 1) :=
  cancel_active ⟨some ⟨0, fun _ => none⟩, []⟩ ⟨0, fun _ => none⟩ 7 rfl

/-- C6: `update a` with no active session throws the no-active-session error
and changes nothing; with a session `s` active it succeeds, forwards `a` to
the session's `update` capability, invokes the notifier, and yields the
manager with `current` unchanged. -/
theorem update_raises_or_forwards (m : Session α β) (a : α) :
    (m.current = none →
      m.update a = (some SessionError.noActiveSession, m)) ∧
    (∀ s : BaseSession α β, m.current = some s →
      m.update a =
        (none, ⟨some s,
          m.log ++ [SessionEvent.sessUpdate s.sid a, SessionEvent.notify]⟩)) := by
  constructor
  · intro h; simp [Session.update, h]
  · intro s h; simp [Session.update, h]

/-- Witness for C6 at a concrete idle manager and a concrete active one. -/
theorem update_raises_or_forwards_witness :
    (Session.update (Session.fresh : Session Nat Nat) 3 =
      (some SessionError.noActiveSession, Session.fresh)) ∧
    (Session.update (⟨some ⟨2, fun _ => none⟩, []⟩ : Session Nat Nat) 3 =
      (none, ⟨some ⟨2, fun _ => none⟩,
        [] ++ [SessionEvent.sessUpdate 2 3, SessionEvent.notify]⟩)) :=
  ⟨(update_raises_or_forwards Session.fresh 3).1 rfl,
   (update_raises_or_forwards ⟨some ⟨2, fun _ => none⟩, []⟩ 3).2
      ⟨2, fun _ => none⟩ rfl⟩

/-- C7: `complete a` with no active session raises nothing (the embedding is a
total function), returns the undefined result `none`, and leaves the manager
completely unchanged — in particular still idle. -/
theorem complete_idle_undefined (m : Session α β) (a : α)
    (h : m.current = none) : m.complete a = (none, m) := by
  cases m with
  | mk cur lg =>
      cases h
      rfl

/-- Witness for C7 at the fresh manager. -/
theorem complete_idle_undefined_witness :
    Session.complete (Session.fresh : Session Nat Nat) 4 =
      (none, Session.fresh) :=
  complete_idle_undefined Session.fresh 4 rfl

/-- C8: `cancel a` with no active session raises nothing (total function),
invokes no session capability, leaves the manager idle, and yields the
manager (the source returns `this`); the only effect is one notifier
invocation appended to the log. -/
theorem cancel_idle_noop (m : Session α β) (a : α)
    (h : m.current = none) :
    (m.cancel a).current = none ∧
    (m.cancel a).log = m.log ++ [SessionEvent.notify] ∧
    (m.cancel a).log.countP SessionEvent.isCapabilityCall =
      m.log.countP SessionEvent.isCapabilityCall := by
  simp [Session.cancel, h, List.countP_append, List.countP_cons,
    SessionEvent.isCapabilityCall]

/-- Witness for C8 at the fresh manager. -/
theorem cancel_idle_noop_witness :
    ((Session.cancel (Session.fresh : Session Nat Nat) 9).current = none) ∧
    ((Session.cancel (Session.fresh : Session Nat Nat) 9).log =
      [] ++ [SessionEvent.notify]) ∧
    ((Session.cancel (Session.fresh : Session Nat Nat) 9).log.countP
        SessionEvent.isCapabilityCall =
      List.countP SessionEvent.isCapabilityCall ([] : List (SessionEvent Nat))) :=
  cancel_idle_noop Session.fresh 9 rfl

/-- C9: `quietlyComplete` on any state yields the idle manager with the log
untouched: no session capability is invoked, the notifier is not invoked, and
nothing but the `current` slot changes. -/
theorem quietlyComplete_silent (m : Session α β) :
    m.quietlyComplete = ⟨none, m.log⟩ := by
  cases m
  rfl

/-- C10: error atomicity — whenever `begin` or `update` signals an error, the
post-state (including the log, hence the notifier-invocation count) is
exactly the pre-state: the throw precedes any mutation or notification. -/
theorem error_atomicity (m : Session α β) (s : BaseSession α β) (a : α) :
    ((m.begin s).1.isSome = true → (m.begin s).2 = m) ∧
    ((m.update a).1.isSome = true → (m.update a).2 = m) := by
  constructor <;> intro h <;> cases hc : m.current <;>
    simp_all [Session.begin, Session.update]

/-- Witness for C10: `begin` erring on a concrete active manager and `update`
erring on the fresh manager. -/
theorem error_atomicity_witness :
    ((Session.begin (⟨some ⟨0, fun _ => none⟩, []⟩ : Session Nat Nat)
        ⟨1, fun _ => none⟩).2 = ⟨some ⟨0, fun _ => none⟩, []⟩) ∧
    ((Session.update (Session.fresh : Session Nat Nat) 2).2 = Session.fresh) :=
  ⟨(error_atomicity (⟨some ⟨0, fun _ => none⟩, []⟩ : Session Nat Nat)
      ⟨1, fun _ => none⟩ 2).1 rfl,
   (error_atomicity (Session.fresh : Session Nat Nat)
      ⟨1, fun _ => none⟩ 2).2 rfl⟩

end Claims

end Tldraw
